import Mathlib

/-!
Verification of the default cell collector and the transaction dependency
provider of a CKB transaction-construction SDK
(`src/traits/default_impls.rs`).

The embedding models the two stateful components of the file:

* `DefaultCellCollector` — a lock set plus an offchain overlay of live
  cells, an index/node sync check (`check_ckb_chain`) and a paginated
  live-cell collection routine (`collect_live_cells`);
* `DefaultTransactionDependencyProvider` — LRU-cached read-through
  accessors `get_transaction`, `get_cell_with_data`, `get_header` and a
  memoized `get_consensus`.

External collaborators (the node RPC client, the indexer RPC client, the
hash function on transactions, the `match_cell` predicate of
`CellQueryOptions`) are modelled at their interface boundary as oracle
functions supplied to the definitions.  Network calls are modelled as
`Except Unit` results; `u64` accumulation is modelled as `Nat` with an
explicit reduction modulo `2 ^ 64`.  Unbounded `while` loops take fuel
and return `Option`, with `none` standing for divergence; a Rust panic
(`unwrap` on `None`) is likewise modelled as `none`.
-/

/-- An out-point `(tx_hash, index)`; hashes are abstracted as `Nat`. -/
structure OutPt where
  tx_hash : Nat
  index : Nat
deriving DecidableEq, Repr

/-- A cell output: capacity plus abstract lock/type script identifiers. -/
structure CellOutput where
  capacity : Nat
  lock_script : Nat
  type_script : Nat
deriving DecidableEq, Repr

/-- The `LiveCell` record of the SDK. -/
structure LiveCell where
  output : CellOutput
  output_data : List Nat
  out_point : OutPt
  block_number : Nat
  tx_index : Nat
deriving DecidableEq, Repr

/-- The indexer tip: block hash and number. -/
structure Tip where
  block_hash : Nat
  block_number : Nat
deriving DecidableEq, Repr

/-- One page returned by the indexer `get_cells` RPC; the conversion
`LiveCell::from` is applied at the interface boundary, so objects are
already `LiveCell`s, and the continuation cursor is abstracted as `Nat`. -/
structure Page where
  objects : List LiveCell
  last_cursor : Nat
deriving DecidableEq, Repr

/-- Query options: the accumulation threshold plus the `match_cell`
predicate (defined outside the verified file, hence abstract); the second
argument of `match_cell` is the max mature block number. -/
structure CellQueryOptions where
  min_total_capacity : Nat
  match_cell : LiveCell → Nat → Bool

/-- Collector errors, distinguishing the error cases of the source:
`Internal` (RPC/transport), the "inconsistent ... or not synced" message
and the "not synced" message. -/
inductive CollectorError where
  | internal
  | inconsistent
  | notSynced
deriving DecidableEq, Repr

/-- The mutable state of `DefaultCellCollector`. -/
structure CollectorState where
  locked_cells : Finset OutPt
  offchain_live_cells : List LiveCell
deriving DecidableEq

/-- A transaction, reduced to what `apply_tx` consumes: the out-points of
its inputs (`input_pts_iter`) and its outputs with data
(`outputs_with_data_iter`). -/
structure Transaction where
  inputs : List OutPt
  outputs : List (CellOutput × List Nat)
deriving DecidableEq

/-- The `u64` modulus. -/
def U64 : Nat := 2 ^ 64

/-- Wrapping `u64` addition. -/
def wadd (a b : Nat) : Nat := (a + b) % U64

/-- Fresh collector state (`DefaultCellCollector::new`). -/
def new_collector : CollectorState :=
  { locked_cells := ∅, offchain_live_cells := [] }

/-- `DefaultCellCollector::lock_cell`: inserts into the lock set and
always returns `Ok(())`. -/
def lock_cell (op : OutPt) (st : CollectorState) :
    Except CollectorError Unit × CollectorState :=
  (.ok (), { st with locked_cells := insert op st.locked_cells })

/-- `DefaultCellCollector::apply_tx`: lock every input out-point, then
append one overlay cell per output, with `block_number = 0`,
`tx_index = 0` and out-point `(tx_hash, i)`.  The hash of the transaction
is computed externally (`tx_view.hash()`), so it is passed in. -/
def apply_tx (tx_hash : Nat) (tx : Transaction) (st : CollectorState) :
    Except CollectorError Unit × CollectorState :=
  let st1 := tx.inputs.foldl (fun s op => (lock_cell op s).2) st
  let new_cells := tx.outputs.enum.map (fun p =>
    ({ output := p.2.1, output_data := p.2.2, out_point := ⟨tx_hash, p.1⟩,
       block_number := 0, tx_index := 0 } : LiveCell))
  (.ok (), { st1 with offchain_live_cells := st1.offchain_live_cells ++ new_cells })

/-- `DefaultCellCollector::reset`: clear the lock set and the overlay. -/
def reset (st : CollectorState) : CollectorState :=
  { st with locked_cells := ∅, offchain_live_cells := [] }

/-- The polling loop of `check_ckb_chain`.  `get_tip` maps the index of
the `get_tip` RPC call to its response; `retry` is the remaining budget
(10 initially) and `calls` the number of calls made so far.  Returns the
result together with the total number of index `get_tip` calls. -/
def check_loop (tip_hash tip_number : Nat)
    (get_tip : Nat → Except Unit (Option Tip)) :
    Nat → Nat → Except CollectorError Unit × Nat
  | 0, calls => (.error .inconsistent, calls)
  | retry + 1, calls =>
    match get_tip calls with
    | .error _ => (.error .internal, calls + 1)
    | .ok none => (.error .notSynced, calls + 1)
    | .ok (some t) =>
      if t.block_number < tip_number then
        check_loop tip_hash tip_number get_tip retry (calls + 1)
      else if tip_hash = t.block_hash ∧ tip_number = t.block_number then
        (.ok (), calls + 1)
      else
        (.error .inconsistent, calls + 1)

/-- `DefaultCellCollector::check_ckb_chain`: fetch the node tip, then
poll the index tip up to 10 times. -/
def check_ckb_chain (node_tip : Except Unit (Nat × Nat))
    (get_tip : Nat → Except Unit (Option Tip)) :
    Except CollectorError Unit × Nat :=
  match node_tip with
  | .error _ => (.error .internal, 0)
  | .ok p => check_loop p.1 p.2 get_tip 10 0

/-- The overlay partition of `collect_live_cells`: walk the offchain
cells in order, taking a cell while the running total is still below the
threshold and the cell matches the query; returns
(matching, non-matching remainder, final total). -/
def partition_offchain (q : CellQueryOptions) (mm : Nat) :
    List LiveCell → Nat → List LiveCell × List LiveCell × Nat
  | [], total => ([], [], total)
  | c :: rest, total =>
    if total < q.min_total_capacity ∧ q.match_cell c mm then
      let r := partition_offchain q mm rest (wadd total c.output.capacity)
      (c :: r.1, r.2.1, r.2.2)
    else
      let r := partition_offchain q mm rest total
      (r.1, c :: r.2.1, r.2.2)

/-- The inner `for` loop over one page of index results: skip a cell
that fails the match predicate or whose out-point is locked; otherwise
accept it, add its capacity, and break once the threshold is met. -/
def process_page (q : CellQueryOptions) (mm : Nat) (locked : Finset OutPt) :
    List LiveCell → List LiveCell → Nat → List LiveCell × Nat
  | [], cells, total => (cells, total)
  | c :: rest, cells, total =>
    if ¬ q.match_cell c mm ∨ c.out_point ∈ locked then
      process_page q mm locked rest cells total
    else
      let total1 := wadd total c.output.capacity
      if q.min_total_capacity ≤ total1 then (cells ++ [c], total1)
      else process_page q mm locked rest (cells ++ [c]) total1

/-- The outer pagination `while` loop of `collect_live_cells`: while the
total is below the threshold, fetch a page with the current limit and
cursor; an empty page breaks the loop; otherwise process the page, set
the cursor, and double the limit while it is below 4096.  The result
carries a trace of the `get_cells` calls made (limit passed and page
received).  `none` models divergence (fuel exhausted). -/
def get_cells_loop (q : CellQueryOptions) (mm : Nat) (locked : Finset OutPt)
    (get_cells : Nat → Option Nat → Except Unit Page) :
    Nat → Nat → Option Nat → List LiveCell → Nat →
    Option (Except Unit (List LiveCell × Nat × List (Nat × Page)))
  | fuel, limit, cursor, cells, total =>
    if q.min_total_capacity ≤ total then some (.ok (cells, total, []))
    else
      match fuel with
      | 0 => none
      | fuel1 + 1 =>
        match get_cells limit cursor with
        | .error e => some (.error e)
        | .ok page =>
          if page.objects = [] then some (.ok (cells, total, [(limit, page)]))
          else
            let pr := process_page q mm locked page.objects cells total
            match get_cells_loop q mm locked get_cells fuel1
                (if limit < 4096 then limit * 2 else limit)
                (some page.last_cursor) pr.1 pr.2 with
            | none => none
            | some (.error e) => some (.error e)
            | some (.ok r) => some (.ok (r.1, r.2.1, (limit, page) :: r.2.2))

/-- The external environment consumed by `collect_live_cells`:
`get_max_mature_number`, the node tip header, the index tip responses and
the index `get_cells` responses (as a function of limit and cursor). -/
structure CollectEnv where
  max_mature : Except Unit Nat
  node_tip : Except Unit (Nat × Nat)
  index_tip : Nat → Except Unit (Option Tip)
  get_cells : Nat → Option Nat → Except Unit Page

/-- The final `apply_changes` pass of `collect_live_cells`: `lock_cell`
every returned cell's out-point. -/
def lock_all (cells : List LiveCell) (st : CollectorState) : CollectorState :=
  cells.foldl (fun s c => (lock_cell c.out_point s).2) st

/-- `DefaultCellCollector::collect_live_cells`.  Returns `none` on
divergence of the pagination loop, otherwise the result
(`Err` keeps the mutated state, matching `&mut self` in Rust) together
with the state after the call. -/
def collect_live_cells (env : CollectEnv) (q : CellQueryOptions)
    (apply_changes : Bool) (fuel : Nat) (st : CollectorState) :
    Option (Except CollectorError (List LiveCell × Nat) × CollectorState) :=
  match env.max_mature with
  | .error _ => some (.error .internal, st)
  | .ok mm =>
    let p := partition_offchain q mm st.offchain_live_cells 0
    let st1 := if apply_changes then { st with offchain_live_cells := p.2.1 } else st
    let phase2 : Option (Except CollectorError (List LiveCell × Nat)) :=
      if p.2.2 < q.min_total_capacity then
        match (check_ckb_chain env.node_tip env.index_tip).1 with
        | .error e => some (.error e)
        | .ok _ =>
          match get_cells_loop q mm st1.locked_cells env.get_cells fuel 128 none p.1 p.2.2 with
          | none => none
          | some (.error _) => some (.error .internal)
          | some (.ok r) => some (.ok (r.1, r.2.1))
      else some (.ok (p.1, p.2.2))
    match phase2 with
    | none => none
    | some (.error e) => some (.error e, st1)
    | some (.ok r) => some (.ok r, if apply_changes then lock_all r.1 st1 else st1)

/-- A transaction together with its chain status, as returned by the node
`get_transaction` RPC; the transaction content is abstracted as `Nat`. -/
inductive TxStatus where
  | pending
  | proposed
  | committed
  | unknown
deriving DecidableEq, Repr

/-- The node response for `get_transaction`. -/
structure TxWithStatus where
  tx_status : TxStatus
  transaction : Option Nat
deriving DecidableEq, Repr

/-- The cell content of a `get_live_cell` response; `data` is optional,
mirroring the `cell.data.unwrap()` in the source. -/
structure CellInfo where
  output : CellOutput
  data : Option (List Nat)
deriving DecidableEq, Repr

/-- The node response for `get_live_cell`: a status string and an
optional cell. -/
structure CellWithStatus where
  status : String
  cell : Option CellInfo
deriving DecidableEq, Repr

/-- Modelled from the spec: the external `lru::LruCache` used by the
dependency provider is not part of this repository; per the spec and the
doc comment of `DefaultTransactionDependencyProvider::new`, it is a
capacity-bounded map with least-recently-used eviction, and capacity 0
disables caching (nothing is ever retained).  `entries` is kept in
most-recently-used-first order. -/
structure LruCache (α β : Type) where
  cap : Nat
  entries : List (α × β)
deriving DecidableEq, Repr

/-- Cache lookup: on a hit the entry moves to the front (refreshing its
recency); on a miss the cache is unchanged. -/
def LruCache.get {α β : Type} [DecidableEq α] (c : LruCache α β) (k : α) :
    Option β × LruCache α β :=
  match c.entries.find? (fun e => decide (e.1 = k)) with
  | none => (none, c)
  | some e =>
    (some e.2,
     { c with entries := (k, e.2) :: c.entries.filter (fun e2 => ! decide (e2.1 = k)) })

/-- Cache insertion: the new entry goes to the front and the list is
truncated to the capacity, evicting least-recently-used entries; with
capacity 0 nothing is retained. -/
def LruCache.put {α β : Type} [DecidableEq α] (c : LruCache α β) (k : α) (v : β) :
    LruCache α β :=
  { c with entries := ((k, v) :: c.entries.filter (fun e2 => ! decide (e2.1 = k))).take c.cap }

/-- The node RPC surface consumed by the dependency provider; headers and
consensus are abstracted as `Nat`. -/
structure NodeOracle where
  get_transaction_rpc : Nat → Except Unit (Option TxWithStatus)
  get_live_cell_rpc : OutPt → Except Unit CellWithStatus
  get_header_rpc : Nat → Except Unit (Option Nat)
  get_consensus_rpc : Except Unit Nat

/-- The guarded state of `DefaultTxDepProviderInner`. -/
structure DepState where
  consensus : Option Nat
  tx_cache : LruCache Nat Nat
  cell_cache : LruCache OutPt (CellOutput × List Nat)
  header_cache : LruCache Nat Nat
deriving DecidableEq

/-- Dependency errors: `NotFound(what)` and the wrapped `Other` case. -/
inductive DepErr where
  | notFound (what : String)
  | other
deriving DecidableEq, Repr

/-- `DefaultTransactionDependencyProvider::new`: three empty LRU caches
of the given capacity and no memoized consensus. -/
def new_provider (cache_capacity : Nat) : DepState :=
  { consensus := none,
    tx_cache := ⟨cache_capacity, []⟩,
    cell_cache := ⟨cache_capacity, []⟩,
    header_cache := ⟨cache_capacity, []⟩ }

/-- `get_transaction`: cache hit returns a copy; a miss fetches by hash,
requires status `Committed` (any other status is a hard error, cached
nowhere), then caches and returns.  The third component records whether a
network fetch was issued; `none` models the `unwrap` panic when a
committed response carries no transaction. -/
def get_transaction (node : NodeOracle) (tx_hash : Nat) (st : DepState) :
    Option (Except DepErr Nat × DepState × Bool) :=
  match LruCache.get st.tx_cache tx_hash with
  | (some tx, c1) => some (.ok tx, { st with tx_cache := c1 }, false)
  | (none, c1) =>
    let st1 := { st with tx_cache := c1 }
    match node.get_transaction_rpc tx_hash with
    | .error _ => some (.error .other, st1, true)
    | .ok none => some (.error (.notFound ("transaction")), st1, true)
    | .ok (some tws) =>
      if tws.tx_status = TxStatus.committed then
        match tws.transaction with
        | none => none
        | some tx =>
          some (.ok tx, { st1 with tx_cache := LruCache.put st1.tx_cache tx_hash tx }, true)
      else some (.error .other, st1, true)

/-- `get_cell_with_data`: cache hit returns the cached pair; a miss
fetches the live cell, requires status `"live"` (any other status is a
hard error, cached nowhere), then caches and returns. -/
def get_cell_with_data (node : NodeOracle) (out_point : OutPt) (st : DepState) :
    Option (Except DepErr (CellOutput × List Nat) × DepState × Bool) :=
  match LruCache.get st.cell_cache out_point with
  | (some pair, c1) => some (.ok pair, { st with cell_cache := c1 }, false)
  | (none, c1) =>
    let st1 := { st with cell_cache := c1 }
    match node.get_live_cell_rpc out_point with
    | .error _ => some (.error .other, st1, true)
    | .ok cws =>
      if cws.status ≠ ("live") then some (.error .other, st1, true)
      else
        match cws.cell with
        | none => none
        | some ci =>
          match ci.data with
          | none => none
          | some d =>
            some (.ok (ci.output, d),
              { st1 with cell_cache := LruCache.put st1.cell_cache out_point (ci.output, d) },
              true)

/-- `get_header`: cache hit returns a copy; a miss fetches, fails with a
not-found error when the node has no such header, otherwise caches and
returns. -/
def get_header (node : NodeOracle) (block_hash : Nat) (st : DepState) :
    Except DepErr Nat × DepState × Bool :=
  match LruCache.get st.header_cache block_hash with
  | (some h, c1) => (.ok h, { st with header_cache := c1 }, false)
  | (none, c1) =>
    let st1 := { st with header_cache := c1 }
    match node.get_header_rpc block_hash with
    | .error _ => (.error .other, st1, true)
    | .ok none => (.error (.notFound ("header")), st1, true)
    | .ok (some h) =>
      (.ok h, { st1 with header_cache := LruCache.put st1.header_cache block_hash h }, true)

/-- `get_consensus`: memoized snapshot, fetched at most once. -/
def get_consensus (node : NodeOracle) (st : DepState) :
    Except DepErr Nat × DepState × Bool :=
  match st.consensus with
  | some c => (.ok c, st, false)
  | none =>
    match node.get_consensus_rpc with
    | .error _ => (.error .other, st, true)
    | .ok c => (.ok c, { st with consensus := some c }, true)

/-- Driver: `n` successive `get_transaction` calls with the same hash,
counting the network fetches issued. -/
def repeat_get_transaction (node : NodeOracle) (k : Nat) :
    Nat → DepState → Option (DepState × Nat)
  | 0, st => some (st, 0)
  | n + 1, st =>
    match get_transaction node k st with
    | none => none
    | some (_, st1, f) =>
      match repeat_get_transaction node k n st1 with
      | none => none
      | some (st2, c) => some (st2, (if f then 1 else 0) + c)

/-- Driver: `n` successive `get_cell_with_data` calls with the same
out-point, counting the network fetches issued. -/
def repeat_get_cell (node : NodeOracle) (k : OutPt) :
    Nat → DepState → Option (DepState × Nat)
  | 0, st => some (st, 0)
  | n + 1, st =>
    match get_cell_with_data node k st with
    | none => none
    | some (_, st1, f) =>
      match repeat_get_cell node k n st1 with
      | none => none
      | some (st2, c) => some (st2, (if f then 1 else 0) + c)

/-- Driver: `n` successive `get_header` calls with the same block hash,
counting the network fetches issued. -/
def repeat_get_header (node : NodeOracle) (k : Nat) :
    Nat → DepState → DepState × Nat
  | 0, st => (st, 0)
  | n + 1, st =>
    let r := get_header node k st
    let r2 := repeat_get_header node k n r.2.1
    (r2.1, (if r.2.2 then 1 else 0) + r2.2)

/-! Helper lemmas about the collector state operations. -/

lemma lock_fold_offchain (l : List OutPt) (st : CollectorState) :
    (l.foldl (fun s op => (lock_cell op s).2) st).offchain_live_cells =
      st.offchain_live_cells := by
  induction l generalizing st with
  | nil => rfl
  | cons a l ih => rw [List.foldl_cons]; rw [ih]; rfl

lemma lock_fold_locked_mem (l : List OutPt) (st : CollectorState) (op : OutPt) :
    op ∈ (l.foldl (fun s op2 => (lock_cell op2 s).2) st).locked_cells ↔
      op ∈ st.locked_cells ∨ op ∈ l := by
  induction l generalizing st with
  | nil => simp
  | cons a l ih =>
    rw [List.foldl_cons]
    rw [ih]
    simp [lock_cell]
    tauto

/-- C8: `lock_cell` unconditionally inserts the out-point into the lock
set, always returns success, and is idempotent: locking the same
out-point twice leaves the state exactly as locking it once. -/
theorem lock_cell_spec (op : OutPt) (st : CollectorState) :
    (lock_cell op st).1 = .ok () ∧
    op ∈ (lock_cell op st).2.locked_cells ∧
    (∀ op2 : OutPt, op2 ∈ (lock_cell op st).2.locked_cells ↔
      op2 = op ∨ op2 ∈ st.locked_cells) ∧
    (lock_cell op (lock_cell op st).2).2 = (lock_cell op st).2 := by
  refine ⟨rfl, ?_, ?_, ?_⟩
  · simp [lock_cell]
  · intro op2; simp [lock_cell]
  · simp [lock_cell, Finset.insert_idem]

/-- C7: `apply_tx` returns success, appends exactly `tx.outputs.length`
cells to the offchain overlay — the i-th appended cell carrying the i-th
output with its data, `block_number = 0` and out-point `(tx_hash, i)` —
and locks exactly the out-points of the inputs: the lock set afterwards
holds an out-point iff it was locked before or is an input's out-point. -/
theorem apply_tx_spec (tx_hash : Nat) (tx : Transaction) (st : CollectorState) :
    (apply_tx tx_hash tx st).1 = .ok () ∧
    (apply_tx tx_hash tx st).2.offchain_live_cells =
      st.offchain_live_cells ++ tx.outputs.enum.map
        (fun p => (⟨p.2.1, p.2.2, ⟨tx_hash, p.1⟩, 0, 0⟩ : LiveCell)) ∧
    (apply_tx tx_hash tx st).2.offchain_live_cells.length =
      st.offchain_live_cells.length + tx.outputs.length ∧
    (∀ c ∈ (apply_tx tx_hash tx st).2.offchain_live_cells,
      c ∈ st.offchain_live_cells ∨ c.block_number = 0) ∧
    (∀ op, op ∈ (apply_tx tx_hash tx st).2.locked_cells ↔
      op ∈ st.locked_cells ∨ op ∈ tx.inputs) := by
  have happ : (apply_tx tx_hash tx st).2.offchain_live_cells =
      st.offchain_live_cells ++ tx.outputs.enum.map
        (fun p => (⟨p.2.1, p.2.2, ⟨tx_hash, p.1⟩, 0, 0⟩ : LiveCell)) := by
    show (tx.inputs.foldl (fun s op2 => (lock_cell op2 s).2) st).offchain_live_cells ++ _ = _
    rw [lock_fold_offchain]
  refine ⟨rfl, happ, ?_, ?_, ?_⟩
  · rw [happ]; simp
  · intro c hc
    rw [happ] at hc
    rcases List.mem_append.mp hc with h1 | h2
    · exact Or.inl h1
    · right
      rcases List.mem_map.mp h2 with ⟨p, _, hp⟩
      rw [← hp]
  · intro op
    show op ∈ (tx.inputs.foldl (fun s op2 => (lock_cell op2 s).2) st).locked_cells ↔ _
    exact lock_fold_locked_mem tx.inputs st op

/-- Fixture for the non-atomicity witness: one matching overlay cell of
capacity 600, an index service that reports no tip. -/
def w9Cell : LiveCell :=
  { output := ⟨600, 0, 0⟩, output_data := [], out_point := ⟨1, 0⟩,
    block_number := 5, tx_index := 0 }

/-- Fixture environment for the non-atomicity witness. -/
def w9Env : CollectEnv :=
  { max_mature := .ok 100,
    node_tip := .ok (77, 9),
    index_tip := fun _ => .ok none,
    get_cells := fun _ _ => .ok ⟨[], 0⟩ }

/-- Fixture query for the non-atomicity witness. -/
def w9Q : CellQueryOptions :=
  { min_total_capacity := 1000, match_cell := fun _ _ => true }

/-- Fixture state for the non-atomicity witness. -/
def w9St : CollectorState :=
  { locked_cells := {⟨9, 9⟩}, offchain_live_cells := [w9Cell] }

/-- C9: `collect_live_cells` is not atomic on error when `apply_changes`
is true: when the overlay's matching capacity stays below the threshold
and then either the sync check fails or the first index `get_cells` call
fails, the call returns an error, yet the offchain overlay has already
been replaced by the non-matching remainder while the lock set is
unchanged. -/
theorem collect_not_atomic_on_error (env : CollectEnv) (q : CellQueryOptions)
    (fuel : Nat) (st : CollectorState) (mm : Nat) (e : CollectorError)
    (hmm : env.max_mature = .ok mm)
    (hbelow : (partition_offchain q mm st.offchain_live_cells 0).2.2 <
      q.min_total_capacity) :
    ((check_ckb_chain env.node_tip env.index_tip).1 = .error e →
      collect_live_cells env q true fuel st =
        some (.error e,
          { locked_cells := st.locked_cells,
            offchain_live_cells :=
              (partition_offchain q mm st.offchain_live_cells 0).2.1 })) ∧
    (∀ f1 : Nat, fuel = f1 + 1 →
      (check_ckb_chain env.node_tip env.index_tip).1 = .ok () →
      env.get_cells 128 none = .error () →
      collect_live_cells env q true fuel st =
        some (.error .internal,
          { locked_cells := st.locked_cells,
            offchain_live_cells :=
              (partition_offchain q mm st.offchain_live_cells 0).2.1 })) := by
  constructor
  · intro hchk
    simp only [collect_live_cells, hmm, if_pos hbelow, hchk, if_pos trivial, if_true]
  · intro f1 hf hchk hgc
    subst hf
    simp only [collect_live_cells, hmm, if_pos hbelow, hchk, get_cells_loop,
      if_neg (Nat.not_le.mpr hbelow), hgc, if_true]

/-- Witness for the non-atomicity theorem at a concrete input: the sync
check fails with `notSynced`, the overlay (one matching cell of
capacity 600, below the threshold 1000) has been emptied, the lock set
kept. -/
theorem collect_not_atomic_on_error_witness :
    collect_live_cells w9Env w9Q true 3 w9St =
      some (.error .notSynced,
        { locked_cells := w9St.locked_cells, offchain_live_cells := [] }) := by
  have h := (collect_not_atomic_on_error w9Env w9Q 3 w9St 100 .notSynced rfl
    (by decide)).1 (by rfl)
  exact h

/-- C5: on a cache miss, `get_transaction` demands status `Committed` and
`get_cell_with_data` demands status `"live"`; any other status yields a
hard error and the state — in particular the corresponding cache — is
left exactly as it was, so nothing is cached on the error path. -/
theorem invalid_status_hard_error_nothing_cached (node : NodeOracle)
    (k : Nat) (op : OutPt) (st : DepState)
    (tws : TxWithStatus) (cws : CellWithStatus)
    (htm : (LruCache.get st.tx_cache k).1 = none)
    (hcm : (LruCache.get st.cell_cache op).1 = none)
    (htr : node.get_transaction_rpc k = .ok (some tws))
    (hts : tws.tx_status ≠ TxStatus.committed)
    (hcr : node.get_live_cell_rpc op = .ok cws)
    (hcs : cws.status ≠ ("live")) :
    get_transaction node k st = some (.error .other, st, true) ∧
    get_cell_with_data node op st = some (.error .other, st, true) := by
  have htf : st.tx_cache.entries.find? (fun e => decide (e.1 = k)) = none := by
    rcases hfind : st.tx_cache.entries.find? (fun e => decide (e.1 = k)) with _ | e
    · exact hfind
    · rw [LruCache.get, hfind] at htm
      simp at htm
  have hcf : st.cell_cache.entries.find? (fun e => decide (e.1 = op)) = none := by
    rcases hfind : st.cell_cache.entries.find? (fun e => decide (e.1 = op)) with _ | e
    · exact hfind
    · rw [LruCache.get, hfind] at hcm
      simp at hcm
  constructor
  · rw [get_transaction, LruCache.get, htf]
    simp only [htr, if_neg hts]
  · rw [get_cell_with_data, LruCache.get, hcf]
    simp only [hcr, if_pos hcs]

/-- Fixture node for the invalid-status witness: the transaction is
reported pending, the cell is reported with status `"unknown"`. -/
def w5Node : NodeOracle :=
  { get_transaction_rpc := fun _ => .ok (some ⟨.pending, some 42⟩),
    get_live_cell_rpc := fun _ => .ok ⟨"unknown", none⟩,
    get_header_rpc := fun _ => .ok (some 9),
    get_consensus_rpc := .ok 1 }

/-- Witness for the invalid-status theorem at a concrete input: on a
fresh provider with capacity 8, both accessors fail hard and the state
stays the fresh state. -/
theorem invalid_status_hard_error_nothing_cached_witness :
    get_transaction w5Node 5 (new_provider 8) =
      some (.error .other, new_provider 8, true) ∧
    get_cell_with_data w5Node ⟨1, 0⟩ (new_provider 8) =
      some (.error .other, new_provider 8, true) :=
  invalid_status_hard_error_nothing_cached w5Node 5 ⟨1, 0⟩ (new_provider 8)
    ⟨.pending, some 42⟩ ⟨"unknown", none⟩ rfl rfl rfl (by decide) rfl (by decide)

/-! Membership lemmas for the collection pipeline, feeding claim C1. -/

lemma partition_mem (q : CellQueryOptions) (mm : Nat) :
    ∀ (l : List LiveCell) (total : Nat) (c : LiveCell),
      c ∈ (partition_offchain q mm l total).1 → c ∈ l := by
  intro l
  induction l with
  | nil =>
    intro total c hc
    simp [partition_offchain] at hc
  | cons a l ih =>
    intro total c hc
    simp only [partition_offchain] at hc
    split at hc
    · rcases List.mem_cons.mp hc with h | h
      · exact h ▸ List.mem_cons_self a l
      · exact List.mem_cons_of_mem a (ih _ c h)
    · exact List.mem_cons_of_mem a (ih _ c hc)

lemma process_page_mem (q : CellQueryOptions) (mm : Nat) (locked : Finset OutPt) :
    ∀ (l cells : List LiveCell) (total : Nat) (c : LiveCell),
      c ∈ (process_page q mm locked l cells total).1 →
      c ∈ cells ∨ c.out_point ∉ locked := by
  intro l
  induction l with
  | nil =>
    intro cells total c hc
    left
    simpa [process_page] using hc
  | cons a l ih =>
    intro cells total c hc
    simp only [process_page] at hc
    split at hc
    · exact ih _ _ c hc
    · rename_i h1
      push_neg at h1
      split at hc
      · rcases List.mem_append.mp hc with h | h
        · exact Or.inl h
        · right
          have hca : c = a := by simpa using h
          rw [hca]
          exact h1.2
      · rcases ih _ _ c hc with h | h
        · rcases List.mem_append.mp h with h2 | h2
          · exact Or.inl h2
          · right
            have hca : c = a := by simpa using h2
            rw [hca]
            exact h1.2
        · exact Or.inr h

lemma get_cells_loop_mem (q : CellQueryOptions) (mm : Nat) (locked : Finset OutPt)
    (gc : Nat → Option Nat → Except Unit Page) :
    ∀ (fuel limit : Nat) (cursor : Option Nat) (cells : List LiveCell) (total : Nat)
      (r : List LiveCell × Nat × List (Nat × Page)),
      get_cells_loop q mm locked gc fuel limit cursor cells total = some (.ok r) →
      ∀ c ∈ r.1, c ∈ cells ∨ c.out_point ∉ locked := by
  intro fuel
  induction fuel with
  | zero =>
    intro limit cursor cells total r hr c hc
    rw [get_cells_loop] at hr
    split at hr
    · simp only [Option.some.injEq, Except.ok.injEq] at hr
      left
      rw [← hr] at hc
      exact hc
    · cases hr
  | succ fuel ih =>
    intro limit cursor cells total r hr c hc
    rw [get_cells_loop] at hr
    split at hr
    · simp only [Option.some.injEq, Except.ok.injEq] at hr
      left
      rw [← hr] at hc
      exact hc
    · rcases hgc : gc limit cursor with e | page
      · rw [hgc] at hr
        simp at hr
      · rw [hgc] at hr
        dsimp only at hr
        by_cases hobj : page.objects = []
        · rw [if_pos hobj] at hr
          simp only [Option.some.injEq, Except.ok.injEq] at hr
          left
          rw [← hr] at hc
          exact hc
        · rw [if_neg hobj] at hr
          rcases hloop : get_cells_loop q mm locked gc fuel
              (if limit < 4096 then limit * 2 else limit) (some page.last_cursor)
              (process_page q mm locked page.objects cells total).1
              (process_page q mm locked page.objects cells total).2 with _ | r2
          · rw [hloop] at hr
            simp at hr
          · rw [hloop] at hr
            rcases r2 with e2 | r2
            · simp at hr
            · simp only [Option.some.injEq, Except.ok.injEq] at hr
              have hc2 : c ∈ r2.1 := by
                rw [← hr] at hc
                exact hc
              rcases ih _ _ _ _ r2 hloop c hc2 with h | h
              · exact process_page_mem q mm locked page.objects cells total c h
              · exact Or.inr h

/-- C1 (amended): every cell returned by a successful `collect_live_cells`
either originates from the offchain overlay or has an out-point that is
not in the lock set at the start of the call.  Cells accepted from the
index service are always checked against the lock set; overlay cells are
not, which is why the overlay disjunct cannot be dropped. -/
theorem collect_no_locked_from_index (env : CollectEnv) (q : CellQueryOptions)
    (ac : Bool) (fuel : Nat) (st : CollectorState)
    (r : List LiveCell × Nat) (st2 : CollectorState)
    (h : collect_live_cells env q ac fuel st = some (.ok r, st2)) :
    ∀ c ∈ r.1, c ∈ st.offchain_live_cells ∨ c.out_point ∉ st.locked_cells := by
  intro c hc
  rcases hmm : env.max_mature with e | mm
  · rw [collect_live_cells, hmm] at h
    simp at h
  · rw [collect_live_cells, hmm] at h
    dsimp only at h
    by_cases hlt : (partition_offchain q mm st.offchain_live_cells 0).2.2 <
        q.min_total_capacity
    · rw [if_pos hlt] at h
      rcases hchk : (check_ckb_chain env.node_tip env.index_tip).1 with e | u
      · rw [hchk] at h
        dsimp only at h
        simp at h
      · rw [hchk] at h
        dsimp only at h
        rcases hloop : get_cells_loop q mm
            (if ac = true then
              { st with offchain_live_cells :=
                  (partition_offchain q mm st.offchain_live_cells 0).2.1 }
             else st).locked_cells
            env.get_cells fuel 128 none
            (partition_offchain q mm st.offchain_live_cells 0).1
            (partition_offchain q mm st.offchain_live_cells 0).2.2 with _ | r2
        · rw [hloop] at h
          simp at h
        · rw [hloop] at h
          rcases r2 with e2 | r2
          · simp at h
          · dsimp only at h
            simp only [Option.some.injEq, Prod.mk.injEq, Except.ok.injEq] at h
            have hr1 : r.1 = r2.1 := by rw [← h.1]
            have hlocked : (if ac = true then
                { st with offchain_live_cells :=
                    (partition_offchain q mm st.offchain_live_cells 0).2.1 }
               else st).locked_cells = st.locked_cells := by
              by_cases hac : ac = true
              · rw [if_pos hac]
              · rw [if_neg hac]
            rw [hr1] at hc
            have := get_cells_loop_mem q mm _ env.get_cells fuel 128 none
              (partition_offchain q mm st.offchain_live_cells 0).1
              (partition_offchain q mm st.offchain_live_cells 0).2.2 r2 hloop c hc
            rcases this with hmem | hnl
            · exact Or.inl (partition_mem q mm st.offchain_live_cells 0 c hmem)
            · right
              rw [hlocked] at hnl
              exact hnl
    · rw [if_neg hlt] at h
      dsimp only at h
      simp only [Option.some.injEq, Prod.mk.injEq, Except.ok.injEq] at h
      have hr1 : r.1 = (partition_offchain q mm st.offchain_live_cells 0).1 := by
        rw [← h.1]
      rw [hr1] at hc
      exact Or.inl (partition_mem q mm st.offchain_live_cells 0 c hc)

/-- Fixture transaction for the C1 counterexample: no inputs, one output
of capacity 100. -/
def c1Tx : Transaction := { inputs := [], outputs := [(⟨100, 0, 0⟩, [])] }

/-- Fixture state for the C1 counterexample, reached by a sequence of
collector operations from a fresh collector: `apply_tx` puts the output
into the overlay, then `lock_cell` locks that very out-point. -/
def c1St : CollectorState := (lock_cell ⟨1, 0⟩ (apply_tx 1 c1Tx new_collector).2).2

/-- Fixture query for the C1 counterexample. -/
def c1Q : CellQueryOptions :=
  { min_total_capacity := 50, match_cell := fun _ _ => true }

/-- Fixture environment for the C1 counterexample (never consulted,
since the overlay already covers the threshold). -/
def c1Env : CollectEnv :=
  { max_mature := .ok 100,
    node_tip := .ok (0, 0),
    index_tip := fun _ => .ok (some ⟨0, 0⟩),
    get_cells := fun _ _ => .ok ⟨[], 0⟩ }

/-- The overlay cell the counterexample collect call returns. -/
def c1Cell : LiveCell :=
  { output := ⟨100, 0, 0⟩, output_data := [], out_point := ⟨1, 0⟩,
    block_number := 0, tx_index := 0 }

/-- Counterexample to C1 as stated: after `apply_tx` followed by
`lock_cell` on the synthesized out-point `(1, 0)`, that out-point sits in
the lock set, yet the subsequent collect call (before any `reset`) still
returns the overlay cell carrying it — overlay cells are not filtered
against the lock set. -/
theorem collect_returns_locked_overlay_cell_counterexample :
    c1Cell.out_point ∈ c1St.locked_cells ∧
    (collect_live_cells c1Env c1Q true 0 c1St).map (fun p => p.1) =
      some (.ok ([c1Cell], 100)) := by
  constructor
  · decide
  · rfl

/-- Fixture cell for the C1 amended witness, served by the index. -/
def w1Cell : LiveCell :=
  { output := ⟨500, 0, 0⟩, output_data := [], out_point := ⟨2, 0⟩,
    block_number := 3, tx_index := 0 }

/-- Fixture environment for the C1 amended witness: a synced index
serving one page with `w1Cell`. -/
def w1Env : CollectEnv :=
  { max_mature := .ok 100,
    node_tip := .ok (5, 5),
    index_tip := fun _ => .ok (some ⟨5, 5⟩),
    get_cells := fun _ _ => .ok ⟨[w1Cell], 1⟩ }

/-- Fixture query for the C1 amended witness. -/
def w1Q : CellQueryOptions :=
  { min_total_capacity := 500, match_cell := fun _ _ => true }

/-- Fixture state for the C1 amended witness: empty overlay, one
unrelated locked out-point. -/
def w1St : CollectorState :=
  { locked_cells := {⟨9, 9⟩}, offchain_live_cells := [] }

/-- Witness for the C1 amended theorem at a concrete input: the one
returned cell was fetched from the index and its out-point is not
locked. -/
theorem collect_no_locked_from_index_witness :
    w1Cell ∈ w1St.offchain_live_cells ∨ w1Cell.out_point ∉ w1St.locked_cells :=
  collect_no_locked_from_index w1Env w1Q false 2 w1St ([w1Cell], 500) w1St rfl
    w1Cell (by simp)

/-! Capacity-sum lemmas for the collection pipeline, feeding claim C2. -/

lemma partition_total (q : CellQueryOptions) (mm : Nat) :
    ∀ (l : List LiveCell) (total : Nat), total < U64 →
      (partition_offchain q mm l total).2.2 =
        (total +
          ((partition_offchain q mm l total).1.map
            (fun c => c.output.capacity)).sum) % U64 := by
  intro l
  induction l with
  | nil =>
    intro total ht
    simp [partition_offchain, Nat.mod_eq_of_lt ht]
  | cons a l ih =>
    intro total ht
    simp only [partition_offchain]
    split
    · have hw : wadd total a.output.capacity < U64 :=
        Nat.mod_lt _ (by norm_num [U64])
      dsimp only
      simp only [List.map_cons, List.sum_cons]
      rw [ih _ hw, wadd, Nat.mod_add_mod]
      congr 1
      omega
    · dsimp only
      exact ih _ ht

lemma process_page_sum (q : CellQueryOptions) (mm : Nat) (locked : Finset OutPt) :
    ∀ (l cells : List LiveCell) (total : Nat),
      total = ((cells.map (fun c => c.output.capacity)).sum) % U64 →
      (process_page q mm locked l cells total).2 =
        (((process_page q mm locked l cells total).1.map
          (fun c => c.output.capacity)).sum) % U64 := by
  intro l
  induction l with
  | nil =>
    intro cells total ht
    simpa [process_page] using ht
  | cons a l ih =>
    intro cells total ht
    simp only [process_page]
    split
    · exact ih _ _ ht
    · have hstep : wadd total a.output.capacity =
          (((cells ++ [a]).map (fun c => c.output.capacity)).sum) % U64 := by
        rw [wadd, ht, Nat.mod_add_mod]
        simp
      split
      · exact hstep
      · exact ih _ _ hstep

lemma get_cells_loop_sum (q : CellQueryOptions) (mm : Nat) (locked : Finset OutPt)
    (gc : Nat → Option Nat → Except Unit Page) :
    ∀ (fuel limit : Nat) (cursor : Option Nat) (cells : List LiveCell) (total : Nat)
      (r : List LiveCell × Nat × List (Nat × Page)),
      total = ((cells.map (fun c => c.output.capacity)).sum) % U64 →
      get_cells_loop q mm locked gc fuel limit cursor cells total = some (.ok r) →
      r.2.1 = ((r.1.map (fun c => c.output.capacity)).sum) % U64 := by
  intro fuel
  induction fuel with
  | zero =>
    intro limit cursor cells total r ht hr
    rw [get_cells_loop] at hr
    split at hr
    · simp only [Option.some.injEq, Except.ok.injEq] at hr
      rw [← hr]
      exact ht
    · cases hr
  | succ fuel ih =>
    intro limit cursor cells total r ht hr
    rw [get_cells_loop] at hr
    split at hr
    · simp only [Option.some.injEq, Except.ok.injEq] at hr
      rw [← hr]
      exact ht
    · rcases hgc : gc limit cursor with e | page
      · rw [hgc] at hr
        simp at hr
      · rw [hgc] at hr
        dsimp only at hr
        by_cases hobj : page.objects = []
        · rw [if_pos hobj] at hr
          simp only [Option.some.injEq, Except.ok.injEq] at hr
          rw [← hr]
          exact ht
        · rw [if_neg hobj] at hr
          rcases hloop : get_cells_loop q mm locked gc fuel
              (if limit < 4096 then limit * 2 else limit) (some page.last_cursor)
              (process_page q mm locked page.objects cells total).1
              (process_page q mm locked page.objects cells total).2 with _ | r2
          · rw [hloop] at hr
            simp at hr
          · rw [hloop] at hr
            rcases r2 with e2 | r2
            · simp at hr
            · simp only [Option.some.injEq, Except.ok.injEq] at hr
              have := ih _ _ _ _ r2
                (process_page_sum q mm locked page.objects cells total ht) hloop
              rw [← hr]
              exact this

/-- C2: for every successful collect call, the returned total capacity
is exactly the `u64` sum of the capacities of the returned cells (the
reduction modulo `2 ^ 64` mirrors the `u64` accumulator; whenever that
sum fits in a `u64`, the equality is exact on the nose). -/
theorem collect_total_is_sum (env : CollectEnv) (q : CellQueryOptions)
    (ac : Bool) (fuel : Nat) (st : CollectorState)
    (r : List LiveCell × Nat) (st2 : CollectorState)
    (h : collect_live_cells env q ac fuel st = some (.ok r, st2)) :
    r.2 = ((r.1.map (fun c => c.output.capacity)).sum) % U64 ∧
    (((r.1.map (fun c => c.output.capacity)).sum) < U64 →
      r.2 = (r.1.map (fun c => c.output.capacity)).sum) := by
  have hU : (0 : Nat) < U64 := by norm_num [U64]
  suffices hmain : r.2 = ((r.1.map (fun c => c.output.capacity)).sum) % U64 by
    refine ⟨hmain, fun hlt => ?_⟩
    rw [hmain, Nat.mod_eq_of_lt hlt]
  rcases hmm : env.max_mature with e | mm
  · rw [collect_live_cells, hmm] at h
    simp at h
  · rw [collect_live_cells, hmm] at h
    dsimp only at h
    have hpart : (partition_offchain q mm st.offchain_live_cells 0).2.2 =
        (((partition_offchain q mm st.offchain_live_cells 0).1.map
          (fun c => c.output.capacity)).sum) % U64 := by
      have hz := partition_total q mm st.offchain_live_cells 0 hU
      simpa using hz
    by_cases hlt : (partition_offchain q mm st.offchain_live_cells 0).2.2 <
        q.min_total_capacity
    · rw [if_pos hlt] at h
      rcases hchk : (check_ckb_chain env.node_tip env.index_tip).1 with e | u
      · rw [hchk] at h
        dsimp only at h
        simp at h
      · rw [hchk] at h
        dsimp only at h
        rcases hloop : get_cells_loop q mm
            (if ac = true then
              { st with offchain_live_cells :=
                  (partition_offchain q mm st.offchain_live_cells 0).2.1 }
             else st).locked_cells
            env.get_cells fuel 128 none
            (partition_offchain q mm st.offchain_live_cells 0).1
            (partition_offchain q mm st.offchain_live_cells 0).2.2 with _ | r2
        · rw [hloop] at h
          simp at h
        · rw [hloop] at h
          rcases r2 with e2 | r2
          · simp at h
          · dsimp only at h
            simp only [Option.some.injEq, Prod.mk.injEq, Except.ok.injEq] at h
            have hsum := get_cells_loop_sum q mm _ env.get_cells fuel 128 none
              (partition_offchain q mm st.offchain_live_cells 0).1
              (partition_offchain q mm st.offchain_live_cells 0).2.2 r2 hpart hloop
            rw [← h.1]
            exact hsum
    · rw [if_neg hlt] at h
      dsimp only at h
      simp only [Option.some.injEq, Prod.mk.injEq, Except.ok.injEq] at h
      rw [← h.1]
      exact hpart

/-- Fixture overlay cell (capacity 600) for the C2 witness. -/
def c2A : LiveCell :=
  { output := ⟨600, 0, 0⟩, output_data := [], out_point := ⟨1, 0⟩,
    block_number := 5, tx_index := 0 }

/-- Fixture index cell (capacity 500) for the C2 witness. -/
def c2B : LiveCell :=
  { output := ⟨500, 0, 0⟩, output_data := [], out_point := ⟨2, 0⟩,
    block_number := 6, tx_index := 0 }

/-- Fixture environment for the C2 witness: synced index serving `c2B`. -/
def c2Env : CollectEnv :=
  { max_mature := .ok 100,
    node_tip := .ok (5, 5),
    index_tip := fun _ => .ok (some ⟨5, 5⟩),
    get_cells := fun _ _ => .ok ⟨[c2B], 1⟩ }

/-- Fixture query (threshold 1000) for the C2 witness. -/
def c2Q : CellQueryOptions :=
  { min_total_capacity := 1000, match_cell := fun _ _ => true }

/-- Fixture state for the C2 witness: empty lock set, overlay `[c2A]`. -/
def c2St : CollectorState :=
  { locked_cells := ∅, offchain_live_cells := [c2A] }

/-- Witness for the capacity-sum theorem at a concrete input: the
overlay supplies 600, the index 500, and the returned total 1100 equals
the sum of the two capacities. -/
theorem collect_total_is_sum_witness :
    (1100 : Nat) = (([c2A, c2B].map (fun c => c.output.capacity)).sum) % U64 ∧
    ((([c2A, c2B].map (fun c => c.output.capacity)).sum) < U64 →
      (1100 : Nat) = ([c2A, c2B].map (fun c => c.output.capacity)).sum) :=
  collect_total_is_sum c2Env c2Q false 2 c2St ([c2A, c2B], 1100) c2St rfl

/-! Pagination-limit lemmas, feeding claim C4. -/

lemma limit_step (j : Nat) :
    (if min (128 * 2 ^ j) 4096 < 4096 then min (128 * 2 ^ j) 4096 * 2
      else min (128 * 2 ^ j) 4096) = min (128 * 2 ^ (j + 1)) 4096 := by
  by_cases hj : j ≤ 4
  · have h2 : (2 : Nat) ^ j ≤ 2 ^ 4 := Nat.pow_le_pow_right (by norm_num) hj
    have h4 : (2 : Nat) ^ 4 = 16 := by norm_num
    simp only [pow_succ]
    split
    · omega
    · omega
  · have h2 : (2 : Nat) ^ 5 ≤ 2 ^ j := Nat.pow_le_pow_right (by norm_num) (by omega)
    have h5 : (2 : Nat) ^ 5 = 32 := by norm_num
    simp only [pow_succ]
    split
    · omega
    · omega

lemma get_cells_loop_trace_limits (q : CellQueryOptions) (mm : Nat)
    (locked : Finset OutPt) (gc : Nat → Option Nat → Except Unit Page) :
    ∀ (fuel j : Nat) (cursor : Option Nat) (cells : List LiveCell) (total : Nat)
      (cs : List LiveCell) (tot : Nat) (tr : List (Nat × Page)),
      get_cells_loop q mm locked gc fuel (min (128 * 2 ^ j) 4096) cursor cells total =
        some (.ok (cs, tot, tr)) →
      ∀ i : Fin tr.length, (tr.get i).1 = min (128 * 2 ^ (j + (i : Nat))) 4096 := by
  intro fuel
  induction fuel with
  | zero =>
    intro j cursor cells total cs tot tr hr i
    rw [get_cells_loop] at hr
    split at hr
    · simp only [Option.some.injEq, Except.ok.injEq, Prod.mk.injEq] at hr
      have h22 : tr = [] := hr.2.2.symm
      rw [h22] at i
      exact absurd i.isLt (by simp)
    · cases hr
  | succ fuel ih =>
    intro j cursor cells total cs tot tr hr i
    rw [get_cells_loop] at hr
    split at hr
    · simp only [Option.some.injEq, Except.ok.injEq, Prod.mk.injEq] at hr
      have h22 : tr = [] := hr.2.2.symm
      rw [h22] at i
      exact absurd i.isLt (by simp)
    · rcases hgc : gc (min (128 * 2 ^ j) 4096) cursor with e | page
      · rw [hgc] at hr
        simp at hr
      · rw [hgc] at hr
        dsimp only at hr
        by_cases hobj : page.objects = []
        · rw [if_pos hobj] at hr
          simp only [Option.some.injEq, Except.ok.injEq, Prod.mk.injEq] at hr
          have h22 : tr = [(min (128 * 2 ^ j) 4096, page)] := hr.2.2.symm
          rcases i with ⟨iv, hi⟩
          have hiv : iv = 0 := by
            rw [h22] at hi
            simpa using Nat.lt_one_iff.mp hi
          subst hiv
          have hget : (tr.get ⟨0, hi⟩).1 = min (128 * 2 ^ j) 4096 := by
            rw [List.get_of_eq h22]
            rfl
          simpa using hget
        · rw [if_neg hobj] at hr
          rw [limit_step j] at hr
          rcases hloop : get_cells_loop q mm locked gc fuel (min (128 * 2 ^ (j + 1)) 4096)
              (some page.last_cursor)
              (process_page q mm locked page.objects cells total).1
              (process_page q mm locked page.objects cells total).2 with _ | r2
          · rw [hloop] at hr
            simp at hr
          · rw [hloop] at hr
            rcases r2 with e2 | ⟨cs2, tot2, tr2⟩
            · simp at hr
            · simp only [Option.some.injEq, Except.ok.injEq, Prod.mk.injEq] at hr
              have h22 : tr = (min (128 * 2 ^ j) 4096, page) :: tr2 := hr.2.2.symm
              have htr2 := ih (j + 1) (some page.last_cursor)
                (process_page q mm locked page.objects cells total).1
                (process_page q mm locked page.objects cells total).2
                cs2 tot2 tr2 hloop
              rcases i with ⟨iv, hi⟩
              rcases iv with _ | iv
              · have hget : (tr.get ⟨0, hi⟩).1 = min (128 * 2 ^ j) 4096 := by
                  rw [List.get_of_eq h22]
                  rfl
                simpa using hget
              · have hi2 : iv < tr2.length := by
                  rw [h22] at hi
                  simpa using hi
                have hget : (tr.get ⟨iv + 1, hi⟩).1 = (tr2.get ⟨iv, hi2⟩).1 := by
                  rw [List.get_of_eq h22]
                  rfl
                rw [hget]
                have h3 := htr2 ⟨iv, hi2⟩
                simp only [Fin.val_mk] at h3 ⊢
                have he : j + 1 + iv = j + (iv + 1) := by omega
                rw [he] at h3
                exact h3

lemma get_cells_loop_below_min (q : CellQueryOptions) (mm : Nat)
    (locked : Finset OutPt) (gc : Nat → Option Nat → Except Unit Page) :
    ∀ (fuel limit : Nat) (cursor : Option Nat) (cells : List LiveCell) (total : Nat)
      (cs : List LiveCell) (tot : Nat) (tr : List (Nat × Page)),
      get_cells_loop q mm locked gc fuel limit cursor cells total =
        some (.ok (cs, tot, tr)) →
      tot < q.min_total_capacity →
      ∃ pre lim pg, tr = pre ++ [(lim, pg)] ∧ pg.objects = [] := by
  intro fuel
  induction fuel with
  | zero =>
    intro limit cursor cells total cs tot tr hr hbelow
    rw [get_cells_loop] at hr
    split at hr
    · rename_i hge
      simp only [Option.some.injEq, Except.ok.injEq, Prod.mk.injEq] at hr
      rw [← hr.2.1] at hbelow
      omega
    · cases hr
  | succ fuel ih =>
    intro limit cursor cells total cs tot tr hr hbelow
    rw [get_cells_loop] at hr
    split at hr
    · rename_i hge
      simp only [Option.some.injEq, Except.ok.injEq, Prod.mk.injEq] at hr
      rw [← hr.2.1] at hbelow
      omega
    · rcases hgc : gc limit cursor with e | page
      · rw [hgc] at hr
        simp at hr
      · rw [hgc] at hr
        dsimp only at hr
        by_cases hobj : page.objects = []
        · rw [if_pos hobj] at hr
          simp only [Option.some.injEq, Except.ok.injEq, Prod.mk.injEq] at hr
          exact ⟨[], limit, page, hr.2.2.symm, hobj⟩
        · rw [if_neg hobj] at hr
          rcases hloop : get_cells_loop q mm locked gc fuel
              (if limit < 4096 then limit * 2 else limit) (some page.last_cursor)
              (process_page q mm locked page.objects cells total).1
              (process_page q mm locked page.objects cells total).2 with _ | r2
          · rw [hloop] at hr
            simp at hr
          · rw [hloop] at hr
            rcases r2 with e2 | ⟨cs2, tot2, tr2⟩
            · simp at hr
            · simp only [Option.some.injEq, Except.ok.injEq, Prod.mk.injEq] at hr
              have hb2 : tot2 < q.min_total_capacity := by
                rw [← hr.2.1] at hbelow
                exact hbelow
              rcases ih _ _ _ _ cs2 tot2 tr2 hloop hb2 with ⟨pre, lim, pg, heq, hpg⟩
              refine ⟨(limit, page) :: pre, lim, pg, ?_, hpg⟩
              rw [← hr.2.2, heq]
              rfl

/-- C4: the pagination loop entered with limit 128 requests pages with
limits `min (128 * 2 ^ k) 4096` in round `k` — starting at 128, doubling
each round, capped at 4096.  It makes no request at all once the
accumulated capacity meets the threshold, and an empty page ends the
loop successfully with whatever was accumulated: any successful result
still below `min_total_capacity` had its last page empty, and an
immediate empty first page returns the initial cells and total. -/
theorem pagination_limits_and_stop (q : CellQueryOptions) (mm : Nat)
    (locked : Finset OutPt) (gc : Nat → Option Nat → Except Unit Page)
    (fuel : Nat) (cells : List LiveCell) (total : Nat) :
    (∀ (cs : List LiveCell) (tot : Nat) (tr : List (Nat × Page)),
      get_cells_loop q mm locked gc fuel 128 none cells total =
        some (.ok (cs, tot, tr)) →
      (∀ i : Fin tr.length, (tr.get i).1 = min (128 * 2 ^ (i : Nat)) 4096) ∧
      (tot < q.min_total_capacity →
        ∃ pre lim pg, tr = pre ++ [(lim, pg)] ∧ pg.objects = [])) ∧
    (q.min_total_capacity ≤ total →
      get_cells_loop q mm locked gc fuel 128 none cells total =
        some (.ok (cells, total, []))) ∧
    (∀ (f1 : Nat) (page : Page), fuel = f1 + 1 → total < q.min_total_capacity →
      gc 128 none = .ok page → page.objects = [] →
      get_cells_loop q mm locked gc fuel 128 none cells total =
        some (.ok (cells, total, [(128, page)]))) := by
  have h128 : (128 : Nat) = min (128 * 2 ^ 0) 4096 := by norm_num
  refine ⟨?_, ?_, ?_⟩
  · intro cs tot tr hr
    constructor
    · intro i
      have := get_cells_loop_trace_limits q mm locked gc fuel 0 none cells total
        cs tot tr (by rw [← h128]; exact hr) i
      simpa using this
    · exact get_cells_loop_below_min q mm locked gc fuel 128 none cells total
        cs tot tr hr
  · intro hge
    rw [get_cells_loop.eq_def]
    dsimp only
    rw [if_pos hge]
  · intro f1 page hf hlt hgc hobj
    subst hf
    rw [get_cells_loop.eq_def]
    dsimp only
    rw [if_neg (Nat.not_le.mpr hlt), hgc]
    dsimp only
    rw [if_pos hobj]

/-- Witness for the pagination theorem at a concrete input: an index
that is immediately exhausted makes the loop return successfully with
the below-threshold total 0 after a single page request of limit 128. -/
theorem pagination_limits_and_stop_witness :
    get_cells_loop ⟨1000, fun _ _ => true⟩ 100 ∅ (fun _ _ => .ok ⟨[], 7⟩)
      3 128 none [] 0 = some (.ok ([], 0, [(128, ⟨[], 7⟩)])) :=
  (pagination_limits_and_stop ⟨1000, fun _ _ => true⟩ 100 ∅
    (fun _ _ => .ok ⟨[], 7⟩) 3 [] 0).2.2 2 ⟨[], 7⟩ rfl (by norm_num) rfl rfl

/-! Cache-behavior lemmas, feeding claim C6. -/

lemma get_transaction_hit (node : NodeOracle) (k tx : Nat) (st : DepState)
    (hst : st.tx_cache.entries = [(k, tx)]) :
    get_transaction node k st = some (.ok tx, st, false) := by
  rw [get_transaction, LruCache.get, hst]
  simp only [List.find?, List.filter, decide_True, Bool.not_true]
  rw [← hst]

lemma repeat_tx_cached (node : NodeOracle) (k tx : Nat) :
    ∀ (n : Nat) (st : DepState), st.tx_cache.entries = [(k, tx)] →
      repeat_get_transaction node k n st = some (st, 0) := by
  intro n
  induction n with
  | zero => intro st hst; rfl
  | succ n ih =>
    intro st hst
    rw [repeat_get_transaction, get_transaction_hit node k tx st hst]
    dsimp only
    rw [ih st hst]
    rfl

lemma get_transaction_first (node : NodeOracle) (k tx cap : Nat) (hcap : 1 ≤ cap)
    (hresp : node.get_transaction_rpc k = .ok (some ⟨.committed, some tx⟩)) :
    get_transaction node k (new_provider cap) =
      some (.ok tx, { new_provider cap with tx_cache := ⟨cap, [(k, tx)]⟩ }, true) := by
  obtain ⟨c, rfl⟩ : ∃ c, cap = c + 1 := ⟨cap - 1, by omega⟩
  rw [get_transaction]
  simp only [new_provider, LruCache.get, List.find?]
  rw [hresp]
  simp [LruCache.put, List.take, List.filter]

lemma repeat_tx_fresh (node : NodeOracle) (k tx cap : Nat) (hcap : 1 ≤ cap)
    (hresp : node.get_transaction_rpc k = .ok (some ⟨.committed, some tx⟩)) :
    ∀ n : Nat, (repeat_get_transaction node k n (new_provider cap)).map
      (fun p => p.2) = some (min n 1) := by
  intro n
  cases n with
  | zero => rfl
  | succ n =>
    rw [repeat_get_transaction, get_transaction_first node k tx cap hcap hresp]
    dsimp only
    rw [repeat_tx_cached node k tx n _ rfl]
    simp

lemma get_transaction_cap0 (node : NodeOracle) (k tx : Nat)
    (hresp : node.get_transaction_rpc k = .ok (some ⟨.committed, some tx⟩)) :
    get_transaction node k (new_provider 0) = some (.ok tx, new_provider 0, true) := by
  rw [get_transaction]
  simp only [new_provider, LruCache.get, List.find?]
  rw [hresp]
  simp [LruCache.put, List.take, List.filter]

lemma repeat_tx_cap0 (node : NodeOracle) (k tx : Nat)
    (hresp : node.get_transaction_rpc k = .ok (some ⟨.committed, some tx⟩)) :
    ∀ n : Nat, repeat_get_transaction node k n (new_provider 0) =
      some (new_provider 0, n) := by
  intro n
  induction n with
  | zero => rfl
  | succ n ih =>
    rw [repeat_get_transaction, get_transaction_cap0 node k tx hresp]
    dsimp only
    rw [ih]
    simp [Nat.add_comm]

lemma get_cell_hit (node : NodeOracle) (k : OutPt) (v : CellOutput × List Nat)
    (st : DepState) (hst : st.cell_cache.entries = [(k, v)]) :
    get_cell_with_data node k st = some (.ok v, st, false) := by
  rw [get_cell_with_data, LruCache.get, hst]
  simp only [List.find?, List.filter, decide_True, Bool.not_true]
  rw [← hst]

lemma repeat_cell_cached (node : NodeOracle) (k : OutPt) (v : CellOutput × List Nat) :
    ∀ (n : Nat) (st : DepState), st.cell_cache.entries = [(k, v)] →
      repeat_get_cell node k n st = some (st, 0) := by
  intro n
  induction n with
  | zero => intro st hst; rfl
  | succ n ih =>
    intro st hst
    rw [repeat_get_cell, get_cell_hit node k v st hst]
    dsimp only
    rw [ih st hst]
    rfl

lemma get_cell_first (node : NodeOracle) (k : OutPt) (out : CellOutput)
    (dat : List Nat) (cap : Nat) (hcap : 1 ≤ cap)
    (hresp : node.get_live_cell_rpc k = .ok ⟨"live", some ⟨out, some dat⟩⟩) :
    get_cell_with_data node k (new_provider cap) =
      some (.ok (out, dat),
        { new_provider cap with cell_cache := ⟨cap, [(k, (out, dat))]⟩ }, true) := by
  obtain ⟨c, rfl⟩ : ∃ c, cap = c + 1 := ⟨cap - 1, by omega⟩
  rw [get_cell_with_data]
  simp only [new_provider, LruCache.get, List.find?]
  rw [hresp]
  simp [LruCache.put, List.take, List.filter]

lemma repeat_cell_fresh (node : NodeOracle) (k : OutPt) (out : CellOutput)
    (dat : List Nat) (cap : Nat) (hcap : 1 ≤ cap)
    (hresp : node.get_live_cell_rpc k = .ok ⟨"live", some ⟨out, some dat⟩⟩) :
    ∀ n : Nat, (repeat_get_cell node k n (new_provider cap)).map
      (fun p => p.2) = some (min n 1) := by
  intro n
  cases n with
  | zero => rfl
  | succ n =>
    rw [repeat_get_cell, get_cell_first node k out dat cap hcap hresp]
    dsimp only
    rw [repeat_cell_cached node k (out, dat) n _ rfl]
    simp

lemma get_cell_cap0 (node : NodeOracle) (k : OutPt) (out : CellOutput)
    (dat : List Nat)
    (hresp : node.get_live_cell_rpc k = .ok ⟨"live", some ⟨out, some dat⟩⟩) :
    get_cell_with_data node k (new_provider 0) =
      some (.ok (out, dat), new_provider 0, true) := by
  rw [get_cell_with_data]
  simp only [new_provider, LruCache.get, List.find?]
  rw [hresp]
  simp [LruCache.put, List.take, List.filter]

lemma repeat_cell_cap0 (node : NodeOracle) (k : OutPt) (out : CellOutput)
    (dat : List Nat)
    (hresp : node.get_live_cell_rpc k = .ok ⟨"live", some ⟨out, some dat⟩⟩) :
    ∀ n : Nat, repeat_get_cell node k n (new_provider 0) =
      some (new_provider 0, n) := by
  intro n
  induction n with
  | zero => rfl
  | succ n ih =>
    rw [repeat_get_cell, get_cell_cap0 node k out dat hresp]
    dsimp only
    rw [ih]
    simp [Nat.add_comm]

lemma get_header_hit (node : NodeOracle) (k v : Nat) (st : DepState)
    (hst : st.header_cache.entries = [(k, v)]) :
    get_header node k st = (.ok v, st, false) := by
  rw [get_header, LruCache.get, hst]
  simp only [List.find?, List.filter, decide_True, Bool.not_true]
  rw [← hst]

lemma repeat_header_cached (node : NodeOracle) (k v : Nat) :
    ∀ (n : Nat) (st : DepState), st.header_cache.entries = [(k, v)] →
      repeat_get_header node k n st = (st, 0) := by
  intro n
  induction n with
  | zero => intro st hst; rfl
  | succ n ih =>
    intro st hst
    rw [repeat_get_header, get_header_hit node k v st hst]
    dsimp only
    rw [ih st hst]
    rfl

lemma get_header_first (node : NodeOracle) (k v cap : Nat) (hcap : 1 ≤ cap)
    (hresp : node.get_header_rpc k = .ok (some v)) :
    get_header node k (new_provider cap) =
      (.ok v, { new_provider cap with header_cache := ⟨cap, [(k, v)]⟩ }, true) := by
  obtain ⟨c, rfl⟩ : ∃ c, cap = c + 1 := ⟨cap - 1, by omega⟩
  rw [get_header]
  simp only [new_provider, LruCache.get, List.find?]
  rw [hresp]
  simp [LruCache.put, List.take, List.filter]

lemma repeat_header_fresh (node : NodeOracle) (k v cap : Nat) (hcap : 1 ≤ cap)
    (hresp : node.get_header_rpc k = .ok (some v)) :
    ∀ n : Nat, (repeat_get_header node k n (new_provider cap)).2 = min n 1 := by
  intro n
  cases n with
  | zero => rfl
  | succ n =>
    rw [repeat_get_header, get_header_first node k v cap hcap hresp]
    dsimp only
    rw [repeat_header_cached node k v n _ rfl]
    simp

lemma get_header_cap0 (node : NodeOracle) (k v : Nat)
    (hresp : node.get_header_rpc k = .ok (some v)) :
    get_header node k (new_provider 0) = (.ok v, new_provider 0, true) := by
  rw [get_header]
  simp only [new_provider, LruCache.get, List.find?]
  rw [hresp]
  simp [LruCache.put, List.take, List.filter]

lemma repeat_header_cap0 (node : NodeOracle) (k v : Nat)
    (hresp : node.get_header_rpc k = .ok (some v)) :
    ∀ n : Nat, repeat_get_header node k n (new_provider 0) = (new_provider 0, n) := by
  intro n
  induction n with
  | zero => rfl
  | succ n ih =>
    rw [repeat_get_header, get_header_cap0 node k v hresp]
    dsimp only
    rw [ih]
    simp [Nat.add_comm]

/-- C6: repeated `get_transaction` / `get_cell_with_data` / `get_header`
calls with a fixed key against a fresh provider of capacity at least 1
issue exactly `min n 1` network fetches (at most one in total); with
capacity 0 every one of the `n` calls issues a fetch and the final state
is still the fresh capacity-0 provider — nothing is ever retained. -/
theorem cache_single_fetch (cap n : Nat) (node : NodeOracle)
    (tk tv : Nat) (op : OutPt) (out : CellOutput) (dat : List Nat) (hk hv : Nat)
    (htx : node.get_transaction_rpc tk = .ok (some ⟨.committed, some tv⟩))
    (hcell : node.get_live_cell_rpc op = .ok ⟨"live", some ⟨out, some dat⟩⟩)
    (hhdr : node.get_header_rpc hk = .ok (some hv)) :
    (1 ≤ cap →
      (repeat_get_transaction node tk n (new_provider cap)).map (fun p => p.2) =
        some (min n 1) ∧
      (repeat_get_cell node op n (new_provider cap)).map (fun p => p.2) =
        some (min n 1) ∧
      (repeat_get_header node hk n (new_provider cap)).2 = min n 1) ∧
    (cap = 0 →
      repeat_get_transaction node tk n (new_provider 0) = some (new_provider 0, n) ∧
      repeat_get_cell node op n (new_provider 0) = some (new_provider 0, n) ∧
      repeat_get_header node hk n (new_provider 0) = (new_provider 0, n)) := by
  constructor
  · intro hcap
    exact ⟨repeat_tx_fresh node tk tv cap hcap htx n,
           repeat_cell_fresh node op out dat cap hcap hcell n,
           repeat_header_fresh node hk hv cap hcap hhdr n⟩
  · intro _
    exact ⟨repeat_tx_cap0 node tk tv htx n,
           repeat_cell_cap0 node op out dat hcell n,
           repeat_header_cap0 node hk hv hhdr n⟩

/-- Fixture node for the single-fetch witness: all responses valid. -/
def w6Node : NodeOracle :=
  { get_transaction_rpc := fun _ => .ok (some ⟨.committed, some 42⟩),
    get_live_cell_rpc := fun _ => .ok ⟨"live", some ⟨⟨100, 0, 0⟩, some [1, 2]⟩⟩,
    get_header_rpc := fun _ => .ok (some 9),
    get_consensus_rpc := .ok 1 }

/-- Witness for the single-fetch theorem at a concrete input: three
repeated calls on each accessor with capacity 1 issue exactly one fetch
each. -/
theorem cache_single_fetch_witness :
    (repeat_get_transaction w6Node 5 3 (new_provider 1)).map (fun p => p.2) =
      some 1 ∧
    (repeat_get_cell w6Node ⟨1, 0⟩ 3 (new_provider 1)).map (fun p => p.2) =
      some 1 ∧
    (repeat_get_header w6Node 7 3 (new_provider 1)).2 = 1 := by
  have h := (cache_single_fetch 1 3 w6Node 5 42 ⟨1, 0⟩ ⟨100, 0, 0⟩ [1, 2] 7 9
    rfl rfl rfl).1 (by norm_num)
  simpa using h

/-! Polling-loop lemmas for `check_ckb_chain`, feeding claim C3. -/

lemma check_loop_ok_iff (th tn : Nat) (gt : Nat → Except Unit (Option Tip)) :
    ∀ (retry calls : Nat),
      (check_loop th tn gt retry calls).1 = .ok () ↔
      ∃ j, j < retry ∧
        (∀ k, k < j → ∃ t, gt (calls + k) = .ok (some t) ∧ t.block_number < tn) ∧
        gt (calls + j) = .ok (some ⟨th, tn⟩) := by
  intro retry
  induction retry with
  | zero =>
    intro calls
    simp [check_loop]
  | succ retry ih =>
    intro calls
    rw [check_loop]
    rcases hgt : gt calls with e | mo
    · dsimp only
      constructor
      · intro hok
        simp at hok
      · rintro ⟨j, hj, hb, hm⟩
        cases j with
        | zero =>
          rw [Nat.add_zero, hgt] at hm
          simp at hm
        | succ j =>
          obtain ⟨t, ht, _⟩ := hb 0 (Nat.succ_pos j)
          rw [Nat.add_zero, hgt] at ht
          simp at ht
    · rcases mo with _ | t
      · dsimp only
        constructor
        · intro hok
          simp at hok
        · rintro ⟨j, hj, hb, hm⟩
          cases j with
          | zero =>
            rw [Nat.add_zero, hgt] at hm
            simp at hm
          | succ j =>
            obtain ⟨t, ht, _⟩ := hb 0 (Nat.succ_pos j)
            rw [Nat.add_zero, hgt] at ht
            simp at ht
      · dsimp only
        by_cases hbt : t.block_number < tn
        · rw [if_pos hbt]
          rw [ih (calls + 1)]
          constructor
          · rintro ⟨j, hj, hb, hm⟩
            refine ⟨j + 1, by omega, ?_, ?_⟩
            · intro k hk
              cases k with
              | zero =>
                refine ⟨t, ?_, hbt⟩
                rw [Nat.add_zero]
                exact hgt
              | succ k =>
                have hx := hb k (by omega)
                have he : calls + 1 + k = calls + (k + 1) := by omega
                rw [he] at hx
                exact hx
            · have he : calls + 1 + j = calls + (j + 1) := by omega
              rw [← he]
              exact hm
          · rintro ⟨j, hj, hb, hm⟩
            cases j with
            | zero =>
              rw [Nat.add_zero, hgt] at hm
              simp only [Except.ok.injEq, Option.some.injEq] at hm
              rw [hm] at hbt
              exact absurd hbt (by simp)
            | succ j =>
              refine ⟨j, by omega, ?_, ?_⟩
              · intro k hk
                have hx := hb (k + 1) (by omega)
                have he : calls + (k + 1) = calls + 1 + k := by omega
                rw [he] at hx
                exact hx
              · have he : calls + (j + 1) = calls + 1 + j := by omega
                rw [he] at hm
                exact hm
        · rw [if_neg hbt]
          by_cases hmatch : th = t.block_hash ∧ tn = t.block_number
          · rw [if_pos hmatch]
            constructor
            · intro _
              refine ⟨0, by omega, fun k hk => absurd hk (by omega), ?_⟩
              rw [Nat.add_zero, hgt]
              rcases t with ⟨bh, bn⟩
              obtain ⟨h1, h2⟩ := hmatch
              rw [h1, h2]
            · intro _
              rfl
          · rw [if_neg hmatch]
            constructor
            · intro hok
              simp at hok
            · rintro ⟨j, hj, hb, hm⟩
              cases j with
              | zero =>
                rw [Nat.add_zero, hgt] at hm
                simp only [Except.ok.injEq, Option.some.injEq] at hm
                refine absurd ?_ hmatch
                rw [hm]
                exact ⟨rfl, rfl⟩
              | succ j =>
                obtain ⟨t2, ht2, hlt2⟩ := hb 0 (Nat.succ_pos j)
                rw [Nat.add_zero, hgt] at ht2
                simp only [Except.ok.injEq, Option.some.injEq] at ht2
                rw [← ht2] at hlt2
                exact (hbt hlt2).elim

lemma check_loop_at_first_decisive (th tn : Nat)
    (gt : Nat → Except Unit (Option Tip)) :
    ∀ (j retry calls : Nat), j < retry →
      (∀ k, k < j → ∃ t, gt (calls + k) = .ok (some t) ∧ t.block_number < tn) →
      ((gt (calls + j) = .ok (some ⟨th, tn⟩) →
         check_loop th tn gt retry calls = (.ok (), calls + j + 1)) ∧
       (gt (calls + j) = .ok none →
         check_loop th tn gt retry calls = (.error .notSynced, calls + j + 1)) ∧
       (∀ t, gt (calls + j) = .ok (some t) → ¬ t.block_number < tn →
         ¬ (th = t.block_hash ∧ tn = t.block_number) →
         check_loop th tn gt retry calls =
           (.error .inconsistent, calls + j + 1))) := by
  intro j
  induction j with
  | zero =>
    intro retry calls hj hb
    cases retry with
    | zero => omega
    | succ retry =>
      refine ⟨?_, ?_, ?_⟩
      · intro hm
        rw [Nat.add_zero] at hm
        rw [check_loop, hm]
        dsimp only
        rw [if_neg (by simp), if_pos ⟨rfl, rfl⟩]
      · intro hnone
        rw [Nat.add_zero] at hnone
        rw [check_loop, hnone]
      · intro t ht hnb hnm
        rw [Nat.add_zero] at ht
        rw [check_loop, ht]
        dsimp only
        rw [if_neg hnb, if_neg hnm]
  | succ j ih =>
    intro retry calls hj hb
    cases retry with
    | zero => omega
    | succ retry =>
      obtain ⟨t0, ht0, hlt0⟩ := hb 0 (Nat.succ_pos j)
      rw [Nat.add_zero] at ht0
      have hstep : check_loop th tn gt (retry + 1) calls =
          check_loop th tn gt retry (calls + 1) := by
        rw [check_loop, ht0]
        dsimp only
        rw [if_pos hlt0]
      have hb2 : ∀ k, k < j →
          ∃ t, gt (calls + 1 + k) = .ok (some t) ∧ t.block_number < tn := by
        intro k hk
        have hx := hb (k + 1) (by omega)
        have he : calls + (k + 1) = calls + 1 + k := by omega
        rw [he] at hx
        exact hx
      have ih2 := ih retry (calls + 1) (by omega) hb2
      have he : calls + (j + 1) = calls + 1 + j := by omega
      have harith : calls + 1 + j + 1 = calls + (j + 1) + 1 := by omega
      refine ⟨?_, ?_, ?_⟩
      · intro hm
        rw [he] at hm
        rw [hstep, ih2.1 hm, harith]
      · intro hnone
        rw [he] at hnone
        rw [hstep, ih2.2.1 hnone, harith]
      · intro t ht hnb hnm
        rw [he] at ht
        rw [hstep, ih2.2.2 t ht hnb hnm, harith]

lemma check_loop_exhaust (th tn : Nat) (gt : Nat → Except Unit (Option Tip)) :
    ∀ (retry calls : Nat),
      (∀ k, k < retry → ∃ t, gt (calls + k) = .ok (some t) ∧ t.block_number < tn) →
      check_loop th tn gt retry calls = (.error .inconsistent, calls + retry) := by
  intro retry
  induction retry with
  | zero =>
    intro calls _
    rw [check_loop, Nat.add_zero]
  | succ retry ih =>
    intro calls hb
    obtain ⟨t0, ht0, hlt0⟩ := hb 0 (Nat.succ_pos retry)
    rw [Nat.add_zero] at ht0
    rw [check_loop, ht0]
    dsimp only
    rw [if_pos hlt0]
    have hb2 : ∀ k, k < retry →
        ∃ t, gt (calls + 1 + k) = .ok (some t) ∧ t.block_number < tn := by
      intro k hk
      have hx := hb (k + 1) (by omega)
      have he : calls + (k + 1) = calls + 1 + k := by omega
      rw [he] at hx
      exact hx
    rw [ih (calls + 1) hb2]
    have he2 : calls + 1 + retry = calls + (retry + 1) := by omega
    rw [he2]

/-- C3: `check_ckb_chain` succeeds iff, within the 10-attempt budget,
after some behind-prefix the index tip equals the node tip in both
number and hash.  It consumes exactly one further `get_tip` call — and
no more — when the index reports no tip, or a tip ahead of the node, or
an equal-height tip with a different hash (the latter two failing with
the inconsistency error), and it fails with the inconsistency error
after exactly 10 polling calls when the index tip number stays below the
node tip number throughout. -/
theorem check_sync_spec (th tn : Nat) (gt : Nat → Except Unit (Option Tip)) :
    ((check_ckb_chain (.ok (th, tn)) gt).1 = .ok () ↔
      ∃ j, j < 10 ∧
        (∀ k, k < j → ∃ t, gt k = .ok (some t) ∧ t.block_number < tn) ∧
        gt j = .ok (some ⟨th, tn⟩)) ∧
    (∀ j, j < 10 →
      (∀ k, k < j → ∃ t, gt k = .ok (some t) ∧ t.block_number < tn) →
      ((gt j = .ok (some ⟨th, tn⟩) →
         check_ckb_chain (.ok (th, tn)) gt = (.ok (), j + 1)) ∧
       (gt j = .ok none →
         check_ckb_chain (.ok (th, tn)) gt = (.error .notSynced, j + 1)) ∧
       (∀ t, gt j = .ok (some t) → ¬ t.block_number < tn →
         ¬ (th = t.block_hash ∧ tn = t.block_number) →
         check_ckb_chain (.ok (th, tn)) gt = (.error .inconsistent, j + 1)))) ∧
    ((∀ k, k < 10 → ∃ t, gt k = .ok (some t) ∧ t.block_number < tn) →
      check_ckb_chain (.ok (th, tn)) gt = (.error .inconsistent, 10)) := by
  have hch : check_ckb_chain (.ok (th, tn)) gt = check_loop th tn gt 10 0 := rfl
  refine ⟨?_, ?_, ?_⟩
  · rw [hch]
    rw [check_loop_ok_iff th tn gt 10 0]
    constructor
    · rintro ⟨j, hj, hb, hm⟩
      refine ⟨j, hj, ?_, ?_⟩
      · intro k hk
        have hx := hb k hk
        rwa [Nat.zero_add] at hx
      · rwa [Nat.zero_add] at hm
    · rintro ⟨j, hj, hb, hm⟩
      refine ⟨j, hj, ?_, ?_⟩
      · intro k hk
        rw [Nat.zero_add]
        exact hb k hk
      · rw [Nat.zero_add]
        exact hm
  · intro j hj hb
    have hb0 : ∀ k, k < j → ∃ t, gt (0 + k) = .ok (some t) ∧ t.block_number < tn := by
      intro k hk
      rw [Nat.zero_add]
      exact hb k hk
    have hdec := check_loop_at_first_decisive th tn gt j 10 0 hj hb0
    refine ⟨?_, ?_, ?_⟩
    · intro hm
      rw [hch]
      have hx := hdec.1 (by rw [Nat.zero_add]; exact hm)
      simpa using hx
    · intro hnone
      rw [hch]
      have hx := hdec.2.1 (by rw [Nat.zero_add]; exact hnone)
      simpa using hx
    · intro t ht hnb hnm
      rw [hch]
      have hx := hdec.2.2 t (by rw [Nat.zero_add]; exact ht) hnb hnm
      simpa using hx
  · intro hb
    rw [hch]
    have hb0 : ∀ k, k < 10 → ∃ t, gt (0 + k) = .ok (some t) ∧ t.block_number < tn := by
      intro k hk
      rw [Nat.zero_add]
      exact hb k hk
    have hx := check_loop_exhaust th tn gt 10 0 hb0
    simpa using hx

/-- Witness for the sync-check theorem at a concrete input: an index
stuck two blocks behind the node tip for every poll makes
`check_ckb_chain` fail with the inconsistency error after exactly 10
`get_tip` calls. -/
theorem check_sync_spec_witness :
    check_ckb_chain (.ok (7, 5)) (fun _ => .ok (some ⟨3, 2⟩)) =
      (.error .inconsistent, 10) :=
  (check_sync_spec 7 5 (fun _ => .ok (some ⟨3, 2⟩))).2.2
    (fun k _ => ⟨⟨3, 2⟩, rfl, by norm_num⟩)
